import Mathlib

/-!
Verification of the prompt-pidgeon data models against their specification.

The Python modules under `prompt_pidgeon/models/` are shallowly embedded:
pydantic models become structures, methods become functions on those
structures, Python dicts become association lists built by sequential
insertion (later insertions overwrite earlier values for the same key),
Python sets become `Finset`s, and `datetime` values are carried abstractly
as their ISO-8601 rendering.
-/

/-- Abstract model of a Python `datetime`: only its ISO-8601 rendering is
ever observed by the embedded code (`isoformat()`), so the value is carried
as that string. -/
structure DateTime where
  iso : String
deriving DecidableEq

/-- Model of the Python values that appear in the `metadata` dictionaries of
the embedded models (`dict[str, Any]` restricted to the value shapes the
code actually stores). -/
inductive PyVal where
  | str (s : String)
  | strList (l : List String)
  | int (n : Int)
  | bool (b : Bool)
  | none
  | dict (entries : List (String × PyVal))

/-- Universal prompt model from `prompt_pidgeon/models/core.py` (`Prompt`).
The `metadata` dict is carried as an association list in insertion order. -/
structure Prompt where
  id : String
  name : String
  content : String
  tags : List String
  created_at : DateTime
  updated_at : DateTime
  version : String
  source_platform : Option String
  source_id : Option String
  metadata : List (String × PyVal)

/-- `Prompt.has_tag`: `tag in self.tags`. -/
def Prompt.has_tag (p : Prompt) (tag : String) : Bool :=
  tag ∈ p.tags

/-- `Prompt.has_any_tags`: `bool(set(tags) & set(self.tags))`. -/
def Prompt.has_any_tags (p : Prompt) (tags : List String) : Bool :=
  decide ((tags.toFinset ∩ p.tags.toFinset).Nonempty)

/-- `Prompt.has_all_tags`: `set(tags).issubset(set(self.tags))`. -/
def Prompt.has_all_tags (p : Prompt) (tags : List String) : Bool :=
  decide (tags.toFinset ⊆ p.tags.toFinset)

/-- Tag-filter model from `prompt_pidgeon/models/core.py` (`TagFilter`). -/
structure TagFilter where
  include_tags : List String
  exclude_tags : List String
  require_all : Bool

/-- `TagFilter.matches`: exclusion first, then the empty-include shortcut,
then all/any over `include_tags` (`if not self.include_tags` is Python list
truthiness, i.e. the emptiness test). -/
def TagFilter.matches (f : TagFilter) (p : Prompt) : Bool :=
  if p.has_any_tags f.exclude_tags then false
  else if f.include_tags = [] then true
  else if f.require_all then p.has_all_tags f.include_tags
  else p.has_any_tags f.include_tags

/-- Sync scope model from `prompt_pidgeon/models/core.py` (`SyncScope`). -/
structure SyncScope where
  scope_type : String
  path : Option String

def spaceChar : Char := Char.ofNat 32

def underscoreChar : Char := Char.ofNat 95

def hyphenChar : Char := Char.ofNat 45

/-- ASCII model of Python `str.lower` acting on one character: uppercase
letters (code points 65-90) are shifted to lowercase, everything else is
unchanged. -/
def pyCharLower (c : Char) : Char :=
  if 65 ≤ c.toNat ∧ c.toNat ≤ 90 then Char.ofNat (c.toNat + 32) else c

/-- Model of Python `str.replace(a, b)` for one-character patterns, acting
on one character. -/
def repChar (a b c : Char) : Char := if c = a then b else c

/-- Python `str.lower()` as a character-wise map. -/
def pyStrLower (s : String) : String := ⟨s.data.map pyCharLower⟩

/-- Python `str.replace(a, b)` for one-character patterns as a
character-wise map. -/
def pyStrReplace1 (s : String) (a b : Char) : String := ⟨s.data.map (repChar a b)⟩

/-- The filename/identifier derivation shared by the file- and
command-based adapters: `prompt.name.lower().replace(" ", "-").replace("_", "-")`. -/
def normalize_name (s : String) : String :=
  pyStrReplace1 (pyStrReplace1 (pyStrLower s) spaceChar hyphenChar) underscoreChar hyphenChar

/-- From the claim's words: lowercase the character unless it is a space or
an underscore, each of which becomes a hyphen; no other character is
altered. -/
def claimNormChar (c : Char) : Char :=
  if c = spaceChar ∨ c = underscoreChar then hyphenChar else pyCharLower c

/-- Model of a Python `str | None` value stored into a `dict[str, Any]`. -/
def pyValOfOptStr : Option String → PyVal
  | Option.some s => PyVal.str s
  | Option.none => PyVal.none

/-- One key-value insertion into a Python dict modelled as an association
list: an existing binding of the key is overwritten in place, otherwise the
pair is appended. -/
def dictInsert (d : List (String × PyVal)) (k : String) (v : PyVal) :
    List (String × PyVal) :=
  if d.any (fun e => decide (e.1 = k)) then
    d.map (fun e => if e.1 = k then (k, v) else e)
  else d ++ [(k, v)]

/-- A Python dict literal (including `**` spreads): the pairs are inserted
left to right, so a later pair overwrites an earlier one with the same key. -/
def dictOfPairs (pairs : List (String × PyVal)) : List (String × PyVal) :=
  pairs.foldl (fun d e => dictInsert d e.1 e.2) []

/-- Dict lookup (first binding of the key; bindings are unique once built by
`dictOfPairs`). -/
def dictGet (d : List (String × PyVal)) (k : String) : Option PyVal :=
  match d with
  | [] => Option.none
  | e :: rest => if e.1 = k then Option.some e.2 else dictGet rest k

/-- Filesystem prompt record from
`prompt_pidgeon/models/platforms/filesystem.py` (`FilesystemPrompt`). -/
structure FilesystemPrompt where
  filename : String
  content : String
  metadata : List (String × PyVal)
  file_extension : String

/-- The fixed metadata fields written first by
`FilesystemPrompt.from_universal_prompt`, in source order. -/
def fixedMetadataPairs (p : Prompt) : List (String × PyVal) :=
  [("id", PyVal.str p.id),
   ("name", PyVal.str p.name),
   ("tags", PyVal.strList p.tags),
   ("created_at", PyVal.str p.created_at.iso),
   ("updated_at", PyVal.str p.updated_at.iso),
   ("version", PyVal.str p.version),
   ("source_platform", pyValOfOptStr p.source_platform),
   ("source_id", pyValOfOptStr p.source_id)]

/-- `FilesystemPrompt.from_universal_prompt`: normalized filename, content,
and the metadata dict literal built from the fixed fields followed by the
spread of `prompt.metadata`. -/
def FilesystemPrompt.from_universal_prompt (p : Prompt) : FilesystemPrompt :=
  { filename := normalize_name p.name
    content := p.content
    metadata := dictOfPairs (fixedMetadataPairs p ++ p.metadata)
    file_extension := "md" }

/-- Claude Code prompt record from
`prompt_pidgeon/models/platforms/coding_assistants.py` (`ClaudeCodePrompt`). -/
structure ClaudeCodePrompt where
  filename : String
  content : String
  scope : SyncScope

/-- `ClaudeCodePrompt.from_universal_prompt`: normalized filename, the
prompt content, and the given scope. -/
def ClaudeCodePrompt.from_universal_prompt (p : Prompt) (scope : SyncScope) :
    ClaudeCodePrompt :=
  { filename := normalize_name p.name, content := p.content, scope := scope }

/-- Cursor rule model from
`prompt_pidgeon/models/platforms/coding_assistants.py` (`CursorPrompt`). -/
structure CursorPrompt where
  filename : String
  content : String
  description : Option String
  globs : List String
  always_apply : Bool

/-- `CursorPrompt.from_universal_prompt`: normalized filename, the prompt
name as description, empty globs, and the given `always_apply`. -/
def CursorPrompt.from_universal_prompt (p : Prompt) (alwaysApply : Bool) : CursorPrompt :=
  { filename := normalize_name p.name
    content := p.content
    description := Option.some p.name
    globs := []
    always_apply := alwaysApply }

/-- The `description` line appended by `generate_frontmatter`:
`if self.description:` is Python string truthiness, so a missing or empty
description appends nothing. -/
def descLine : Option String → List String
  | Option.some s => if s = "" then [] else ["description: \"" ++ s ++ "\""]
  | Option.none => []

/-- Model of Python `str(bool).lower()`. -/
def pyBoolLower (b : Bool) : String := if b then "true" else "false"

/-- `CursorPrompt.generate_frontmatter`: sequentially appends the opening
marker, the optional description line, the optional glob block, the
`alwaysApply` line and the closing marker, and joins them with newlines. -/
def CursorPrompt.generate_frontmatter (cp : CursorPrompt) : String :=
  let lines1 := ["---"]
  let lines2 := lines1 ++ descLine cp.description
  let lines3 := lines2 ++
    (if cp.globs = [] then []
     else "globs:" :: cp.globs.map (fun g => "  - \"" ++ g ++ "\""))
  let lines4 := lines3 ++ ["alwaysApply: " ++ pyBoolLower cp.always_apply]
  let lines5 := lines4 ++ ["---"]
  String.intercalate "\n" lines5

/-- Open-WebUI user prompt record from
`prompt_pidgeon/models/platforms/openwebui.py` (`OpenWebUIUserPrompt`). -/
structure OpenWebUIUserPrompt where
  command : String
  title : String
  content : String
  access_control : List (String × PyVal)

/-- `OpenWebUIUserPrompt.from_universal_prompt`: the command is a slash,
the command prefix, a hyphen and the normalized name. -/
def OpenWebUIUserPrompt.from_universal_prompt (p : Prompt) (commandPref : String) :
    OpenWebUIUserPrompt :=
  { command := "/" ++ commandPref ++ "-" ++ normalize_name p.name
    title := p.name
    content := p.content
    access_control := [] }

/-- Open-WebUI system-model record from
`prompt_pidgeon/models/platforms/openwebui.py` (`OpenWebUIModel`). -/
structure OpenWebUIModel where
  id : String
  name : String
  base_model_id : String
  params : List (String × PyVal)
  is_active : Bool
  meta : List (String × PyVal)
  tags : List String

/-- `OpenWebUIModel.from_universal_prompt`: the model id is the model
prefix, the normalized name and the base-model short name joined by
hyphens, the system prompt is the content, and the tag list puts the
managed marker first. -/
def OpenWebUIModel.from_universal_prompt (p : Prompt) (baseModelId : String)
    (modelPref : String) (baseModelShort : String) : OpenWebUIModel :=
  let promptBase := normalize_name p.name
  let modelId := modelPref ++ "-" ++ promptBase ++ "-" ++ baseModelShort
  { id := modelId
    name := modelId
    base_model_id := baseModelId
    params := [("system", PyVal.str p.content)]
    is_active := true
    meta := []
    tags := ["prompt-pidgeon-managed"] ++ p.tags }

/-- Langfuse prompt model from `prompt_pidgeon/models/platforms/langfuse.py`
(`LangfusePrompt`). The `config` dict is carried as an association list. -/
structure LangfusePrompt where
  id : String
  name : String
  prompt : String
  version : Int
  type : String
  labels : List String
  tags : List String
  created_at : DateTime
  updated_at : DateTime
  config : List (String × PyVal)

/-- `LangfusePrompt.to_universal_prompt`: `list(set(self.labels + self.tags))`
is modelled as `(labels ++ tags).dedup` (a duplicate-free list carrying the
union, order unspecified in Python); `freshId` stands for the `uuid4()`
value generated for the universal `id`. -/
def LangfusePrompt.to_universal_prompt (lp : LangfusePrompt) (freshId : String) : Prompt :=
  { id := freshId
    name := lp.name
    content := lp.prompt
    tags := (lp.labels ++ lp.tags).dedup
    created_at := lp.created_at
    updated_at := lp.updated_at
    version := toString lp.version
    source_platform := Option.some "langfuse"
    source_id := Option.some lp.id
    metadata := [("langfuse_version", PyVal.int lp.version),
                 ("langfuse_type", PyVal.str lp.type),
                 ("langfuse_config", PyVal.dict lp.config),
                 ("langfuse_labels", PyVal.strList lp.labels)] }

/-- The view `validate_config` takes of a configured source:
`getattr(source, "name", None)`, i.e. `Option.none` when the entry has no
name attribute (plain `BaseModel`) or a `None` name. -/
structure SourceConfig where
  name : Option String
deriving DecidableEq

/-- The view `validate_config` takes of a configured sink, as for sources. -/
structure SinkConfig where
  name : Option String
deriving DecidableEq

/-- Sync job configuration from `prompt_pidgeon/models/config.py`
(`SyncJobConfig`), restricted to the fields validation reads. -/
structure SyncJobConfig where
  name : String
  source : String
  sink : String
  enabled : Bool
deriving DecidableEq

/-- `PidgeonConfig` restricted to the collections `validate_config` reads. -/
structure PidgeonConfig where
  sources : List SourceConfig
  sinks : List SinkConfig
  sync : List SyncJobConfig

/-- The ASCII apostrophe used in the diagnostic messages. -/
def apos : String := String.mk [Char.ofNat 39]

/-- Diagnostic for a sync job referencing an unknown source. -/
def unknownSourceMsg (job : SyncJobConfig) : String :=
  "Sync job " ++ apos ++ job.name ++ apos ++ " references unknown source " ++
    apos ++ job.source ++ apos

/-- Diagnostic for a sync job referencing an unknown sink. -/
def unknownSinkMsg (job : SyncJobConfig) : String :=
  "Sync job " ++ apos ++ job.name ++ apos ++ " references unknown sink " ++
    apos ++ job.sink ++ apos

/-- `source_names`: the set comprehension over sources with `None`
discarded. -/
def sourceNames (config : PidgeonConfig) : Finset String :=
  (config.sources.filterMap SourceConfig.name).toFinset

/-- `sink_names`: the set comprehension over sinks with `None` discarded. -/
def sinkNames (config : PidgeonConfig) : Finset String :=
  (config.sinks.filterMap SinkConfig.name).toFinset

/-- The diagnostics the per-job loop of `validate_config` appends for one
sync job: the unknown-source message, then the unknown-sink message. -/
def jobRefErrors (srcNames snkNames : Finset String) (job : SyncJobConfig) : List String :=
  (if job.source ∈ srcNames then [] else [unknownSourceMsg job]) ++
  (if job.sink ∈ snkNames then [] else [unknownSinkMsg job])

/-- `ConfigManager.validate_config`: per-job referential diagnostics in sync
order, then the duplicate-source check, then the duplicate-sink check (each
comparing the discarded-None name set's size with the full list length). -/
def validate_config (config : PidgeonConfig) : List String :=
  (config.sync.flatMap (jobRefErrors (sourceNames config) (sinkNames config))) ++
  ((if (sourceNames config).card ≠ config.sources.length
    then ["Duplicate source names found"] else []) ++
   (if (sinkNames config).card ≠ config.sinks.length
    then ["Duplicate sink names found"] else []))

/-- Python `x or y` over `os.getenv` results: `None` (unset) and the empty
string are falsy and fall through to `y`. -/
def pyOrStr (a b : Option String) : Option String :=
  match a with
  | Option.some s => if s = "" then b else Option.some s
  | Option.none => b

/-- The `langfuse_url` resolution chain from `EnvironmentSettings.__init__`:
`PROMPT_PIDGEON_LANGFUSE_URL or LANGFUSE_URL or PROMPT_PIDGEON_LANGFUSE_HOST
or LANGFUSE_HOST`, each argument being the `os.getenv` result for that
variable. -/
def resolve_langfuse_url (ppUrl lfUrl ppHost lfHost : Option String) : Option String :=
  pyOrStr (pyOrStr (pyOrStr ppUrl lfUrl) ppHost) lfHost

/-- From the claim's words: the first non-empty value among an ordered list
of optional strings. -/
def firstNonEmpty (l : List (Option String)) : Option String :=
  match l with
  | [] => Option.none
  | o :: rest =>
    match o with
    | Option.some s => if s = "" then firstNonEmpty rest else Option.some s
    | Option.none => firstNonEmpty rest

theorem has_any_tags_iff (p : Prompt) (ts : List String) :
    p.has_any_tags ts = true ↔ ∃ t ∈ ts, t ∈ p.tags := by
  simp only [Prompt.has_any_tags, decide_eq_true_eq, Finset.Nonempty, Finset.mem_inter,
    List.mem_toFinset]

theorem has_all_tags_iff (p : Prompt) (ts : List String) :
    p.has_all_tags ts = true ↔ ∀ t ∈ ts, t ∈ p.tags := by
  simp only [Prompt.has_all_tags, decide_eq_true_eq, Finset.subset_iff, List.mem_toFinset]

theorem has_any_tags_false_iff (p : Prompt) (ts : List String) :
    p.has_any_tags ts = false ↔ ∀ t ∈ ts, t ∉ p.tags := by
  rw [← Bool.not_eq_true, not_iff_comm, has_any_tags_iff]
  push_neg
  simp

/-- C9: `has_any_tags ts` is true iff some element of `ts` occurs in the
prompt's tags (hence false for empty `ts`), and `has_all_tags ts` is true
iff every element of `ts` occurs in the prompt's tags (hence vacuously true
for empty `ts`). -/
theorem prompt_tag_queries_spec (p : Prompt) (ts : List String) :
    (p.has_any_tags ts = true ↔ ∃ t ∈ ts, t ∈ p.tags) ∧
    p.has_any_tags [] = false ∧
    (p.has_all_tags ts = true ↔ ∀ t ∈ ts, t ∈ p.tags) ∧
    p.has_all_tags [] = true := by
  refine ⟨has_any_tags_iff p ts, ?_, has_all_tags_iff p ts, ?_⟩
  · rw [has_any_tags_false_iff]; simp
  · rw [has_all_tags_iff]; simp

/-- C1: `TagFilter.matches` returns false whenever the prompt carries an
excluded tag; returns true when no excluded tag is carried and
`include_tags` is empty; otherwise returns `has_all_tags include_tags` when
`require_all` is set and `has_any_tags include_tags` when it is not. -/
theorem tagFilter_matches_spec (f : TagFilter) (p : Prompt) :
    ((∃ t ∈ f.exclude_tags, t ∈ p.tags) → f.matches p = false) ∧
    ((∀ t ∈ f.exclude_tags, t ∉ p.tags) → f.include_tags = [] → f.matches p = true) ∧
    ((∀ t ∈ f.exclude_tags, t ∉ p.tags) → f.include_tags ≠ [] →
      f.matches p =
        if f.require_all then p.has_all_tags f.include_tags
        else p.has_any_tags f.include_tags) := by
  refine ⟨?_, ?_, ?_⟩
  · intro hex
    have h : p.has_any_tags f.exclude_tags = true := (has_any_tags_iff p _).mpr hex
    simp [TagFilter.matches, h]
  · intro hnone hempty
    have h : p.has_any_tags f.exclude_tags = false := (has_any_tags_false_iff p _).mpr hnone
    simp [TagFilter.matches, h, hempty]
  · intro hnone hne
    have h : p.has_any_tags f.exclude_tags = false := (has_any_tags_false_iff p _).mpr hnone
    simp [TagFilter.matches, h, hne]

/-- Witness for C1 at concrete inputs: a prompt carrying an excluded tag is
rejected, and with no exclusions and empty includes every prompt matches. -/
theorem tagFilter_matches_spec_witness :
    TagFilter.matches ⟨[], ["secret"], false⟩
      ⟨"i", "n", "c", ["secret", "work"], ⟨""⟩, ⟨""⟩, "1", Option.none, Option.none, []⟩ = false ∧
    TagFilter.matches ⟨[], [], false⟩
      ⟨"i", "n", "c", ["work"], ⟨""⟩, ⟨""⟩, "1", Option.none, Option.none, []⟩ = true := by
  constructor
  · exact (tagFilter_matches_spec ⟨[], ["secret"], false⟩
      ⟨"i", "n", "c", ["secret", "work"], ⟨""⟩, ⟨""⟩, "1", Option.none, Option.none, []⟩).1
      (by decide)
  · exact (tagFilter_matches_spec ⟨[], [], false⟩
      ⟨"i", "n", "c", ["work"], ⟨""⟩, ⟨""⟩, "1", Option.none, Option.none, []⟩).2.1
      (by decide) rfl

theorem toNat_ofNat_small (n : Nat) (h : n < 55296) : (Char.ofNat n).toNat = n := by
  simp [Char.ofNat, Nat.isValidChar, h, Char.ofNatAux, Char.toNat, UInt32.toNat]

theorem char_eq_iff_toNat (a b : Char) : a = b ↔ a.toNat = b.toNat := by
  constructor
  · intro h; rw [h]
  · intro h
    exact Char.ext (UInt32.toNat.inj h)

theorem pyCharLower_idem (c : Char) : pyCharLower (pyCharLower c) = pyCharLower c := by
  unfold pyCharLower
  split
  · rename_i h
    have hv : (Char.ofNat (c.toNat + 32)).toNat = c.toNat + 32 :=
      toNat_ofNat_small _ (by omega)
    rw [if_neg]
    omega
  · rfl

theorem pyCharLower_eq_space_iff (c : Char) : pyCharLower c = spaceChar ↔ c = spaceChar := by
  have hsp : spaceChar.toNat = 32 := by decide
  unfold pyCharLower
  split
  · rename_i h
    have hv : (Char.ofNat (c.toNat + 32)).toNat = c.toNat + 32 :=
      toNat_ofNat_small _ (by omega)
    rw [char_eq_iff_toNat, char_eq_iff_toNat]
    omega
  · rfl

theorem pyCharLower_eq_underscore_iff (c : Char) :
    pyCharLower c = underscoreChar ↔ c = underscoreChar := by
  have hus : underscoreChar.toNat = 95 := by decide
  unfold pyCharLower
  split
  · rename_i h
    have hv : (Char.ofNat (c.toNat + 32)).toNat = c.toNat + 32 :=
      toNat_ofNat_small _ (by omega)
    rw [char_eq_iff_toNat, char_eq_iff_toNat]
    omega
  · rfl

theorem normChar_eq_claim (c : Char) :
    repChar underscoreChar hyphenChar (repChar spaceChar hyphenChar (pyCharLower c)) =
      claimNormChar c := by
  by_cases hsp : c = spaceChar
  · subst hsp
    decide
  · by_cases hus : c = underscoreChar
    · subst hus
      decide
    · have h1 : pyCharLower c ≠ spaceChar := fun h => hsp ((pyCharLower_eq_space_iff c).mp h)
      have h2 : pyCharLower c ≠ underscoreChar := fun h =>
        hus ((pyCharLower_eq_underscore_iff c).mp h)
      simp [repChar, claimNormChar, h1, h2, hsp, hus]

theorem normalize_name_data (s : String) :
    (normalize_name s).data = s.data.map claimNormChar := by
  simp only [normalize_name, pyStrReplace1, pyStrLower, List.map_map]
  exact List.map_congr_left fun c _ => normChar_eq_claim c

theorem claimNormChar_idem (c : Char) : claimNormChar (claimNormChar c) = claimNormChar c := by
  by_cases hsp : c = spaceChar
  · subst hsp; decide
  · by_cases hus : c = underscoreChar
    · subst hus; decide
    · have hc : claimNormChar c = pyCharLower c := by simp [claimNormChar, hsp, hus]
      rw [hc]
      have h1 : pyCharLower c ≠ spaceChar := fun h => hsp ((pyCharLower_eq_space_iff c).mp h)
      have h2 : pyCharLower c ≠ underscoreChar := fun h =>
        hus ((pyCharLower_eq_underscore_iff c).mp h)
      simp [claimNormChar, h1, h2, pyCharLower_idem]

/-- C4: the filename normalization shared by the file- and command-based
adapters lowercases the name and replaces exactly the spaces and
underscores by hyphens, altering no other character (slashes included); it
is idempotent; it maps the documented example names accordingly; and every
adapter derives its filename or command from it. -/
theorem normalize_name_spec :
    (∀ s : String, (normalize_name s).data = s.data.map claimNormChar) ∧
    (∀ s : String, normalize_name (normalize_name s) = normalize_name s) ∧
    normalize_name "My Complex_Prompt Name" = "my-complex-prompt-name" ∧
    normalize_name "user/review-code" = "user/review-code" ∧
    (∀ (p : Prompt) (scope : SyncScope),
      (ClaudeCodePrompt.from_universal_prompt p scope).filename = normalize_name p.name) ∧
    (∀ (p : Prompt) (b : Bool),
      (CursorPrompt.from_universal_prompt p b).filename = normalize_name p.name) ∧
    (∀ p : Prompt, (FilesystemPrompt.from_universal_prompt p).filename = normalize_name p.name) ∧
    (∀ (p : Prompt) (commandPref : String),
      (OpenWebUIUserPrompt.from_universal_prompt p commandPref).command =
        "/" ++ commandPref ++ "-" ++ normalize_name p.name) := by
  refine ⟨normalize_name_data, ?_, by decide, by decide,
    fun p scope => rfl, fun p b => rfl, fun p => rfl, fun p c => rfl⟩
  intro s
  apply String.ext
  rw [normalize_name_data, normalize_name_data, List.map_map]
  exact List.map_congr_left fun c _ => claimNormChar_idem c

/-- C5: the Langfuse conversion produces a duplicate-free tag list whose
underlying set is the union of the source labels and tags, stringifies the
numeric version, and on `labels=[a,b]`, `tags=[b,c]` yields three tags
forming the set containing a, b and c. -/
theorem langfuse_to_universal_spec (lp : LangfusePrompt) (freshId : String) :
    (lp.to_universal_prompt freshId).tags.Nodup ∧
    (∀ t, t ∈ (lp.to_universal_prompt freshId).tags ↔ t ∈ lp.labels ∨ t ∈ lp.tags) ∧
    (lp.to_universal_prompt freshId).version = toString lp.version ∧
    (LangfusePrompt.to_universal_prompt
        ⟨"lfid", "n", "c", 3, "text", ["a", "b"], ["b", "c"], ⟨""⟩, ⟨""⟩, []⟩ "u").tags.length = 3 ∧
    (LangfusePrompt.to_universal_prompt
        ⟨"lfid", "n", "c", 3, "text", ["a", "b"], ["b", "c"], ⟨""⟩, ⟨""⟩, []⟩ "u").tags.toFinset =
      {"a", "b", "c"} := by
  refine ⟨List.nodup_dedup _, ?_, rfl, by decide, by decide⟩
  intro t
  simp [LangfusePrompt.to_universal_prompt, List.mem_dedup]

/-- C7: the Open-WebUI model tags are exactly the managed marker followed by
the prompt's tags in order, with no deduplication: the documented example
gives the marker then technical then architecture, and a prompt already
carrying the marker keeps it twice. -/
theorem openwebui_model_tags_spec (p : Prompt) (baseModelId modelPref baseModelShort : String) :
    (OpenWebUIModel.from_universal_prompt p baseModelId modelPref baseModelShort).tags =
      "prompt-pidgeon-managed" :: p.tags ∧
    (OpenWebUIModel.from_universal_prompt
        ⟨"i", "n", "c", ["technical", "architecture"], ⟨""⟩, ⟨""⟩, "1",
          Option.none, Option.none, []⟩ "llama" "sme" "default").tags =
      ["prompt-pidgeon-managed", "technical", "architecture"] ∧
    (OpenWebUIModel.from_universal_prompt
        ⟨"i", "n", "c", ["prompt-pidgeon-managed"], ⟨""⟩, ⟨""⟩, "1",
          Option.none, Option.none, []⟩ "llama" "sme" "default").tags =
      ["prompt-pidgeon-managed", "prompt-pidgeon-managed"] :=
  ⟨rfl, rfl, rfl⟩

/-- C6: the Cursor frontmatter is exactly the newline-join of the opening
marker, the description line when a non-empty description is present, the
glob block when glob patterns exist, the lowercase `alwaysApply` literal
line and the closing marker; with no description, no globs and
`always_apply` false it is the three bare lines. -/
theorem cursor_frontmatter_spec (cp : CursorPrompt) :
    cp.generate_frontmatter = String.intercalate "\n"
      (["---"] ++
       (match cp.description with
        | Option.some d => if d = "" then [] else ["description: \"" ++ d ++ "\""]
        | Option.none => []) ++
       (if cp.globs = [] then []
        else ["globs:"] ++ cp.globs.map (fun g => "  - \"" ++ g ++ "\"")) ++
       [if cp.always_apply then "alwaysApply: true" else "alwaysApply: false"] ++
       ["---"]) ∧
    CursorPrompt.generate_frontmatter ⟨"f", "c", Option.none, [], false⟩ =
      "---\nalwaysApply: false\n---" := by
  constructor
  · obtain ⟨fn, ct, ds, gl, ap⟩ := cp
    cases ap <;>
      simp [CursorPrompt.generate_frontmatter, descLine, pyBoolLower, List.append_assoc]
  · rfl

theorem dictGet_map_override (d : List (String × PyVal)) (k : String) (v : PyVal)
    (h : d.any (fun e => decide (e.1 = k)) = true) :
    dictGet (d.map (fun e => if e.1 = k then (k, v) else e)) k = Option.some v := by
  induction d with
  | nil => simp at h
  | cons e rest ih =>
    by_cases he : e.1 = k
    · simp [dictGet, he]
    · simp only [List.any_cons, Bool.or_eq_true, decide_eq_true_eq] at h
      rcases h with h | h
      · exact absurd h he
      · simp only [List.map_cons, if_neg he, dictGet, if_neg he]
        exact ih h

theorem dictGet_map_ne (d : List (String × PyVal)) (k : String) (v : PyVal) (k' : String)
    (h : k' ≠ k) :
    dictGet (d.map (fun e => if e.1 = k then (k, v) else e)) k' = dictGet d k' := by
  induction d with
  | nil => rfl
  | cons e rest ih =>
    by_cases he : e.1 = k
    · have hk : ¬ k = k' := fun hkk => h (Eq.symm hkk)
      have he' : ¬ e.1 = k' := fun hk2 => h (hk2.symm.trans he)
      simp only [List.map_cons, if_pos he]
      simp only [dictGet, if_neg hk, if_neg he']
      exact ih
    · simp only [List.map_cons, if_neg he, dictGet]
      by_cases he' : e.1 = k'
      · simp [he']
      · simp only [if_neg he']
        exact ih

theorem dictGet_append (d l : List (String × PyVal)) (k : String) :
    dictGet (d ++ l) k =
      match dictGet d k with
      | Option.some v => Option.some v
      | Option.none => dictGet l k := by
  induction d with
  | nil => rfl
  | cons e rest ih =>
    by_cases he : e.1 = k
    · simp [dictGet, he]
    · simp only [List.cons_append, dictGet, if_neg he]
      exact ih

theorem dictGet_eq_none_of_not_any (d : List (String × PyVal)) (k : String)
    (h : ¬ d.any (fun e => decide (e.1 = k)) = true) : dictGet d k = Option.none := by
  induction d with
  | nil => rfl
  | cons e rest ih =>
    simp only [List.any_cons, Bool.or_eq_true, decide_eq_true_eq] at h
    push_neg at h
    simp only [dictGet, if_neg h.1]
    exact ih h.2

theorem dictGet_dictInsert_self (d : List (String × PyVal)) (k : String) (v : PyVal) :
    dictGet (dictInsert d k v) k = Option.some v := by
  unfold dictInsert
  split
  · rename_i h
    exact dictGet_map_override d k v h
  · rw [dictGet_append]
    rename_i h
    rw [dictGet_eq_none_of_not_any d k h]
    simp [dictGet]

theorem dictGet_dictInsert_ne (d : List (String × PyVal)) (k : String) (v : PyVal)
    (k' : String) (h : k' ≠ k) :
    dictGet (dictInsert d k v) k' = dictGet d k' := by
  unfold dictInsert
  split
  · exact dictGet_map_ne d k v k' h
  · rw [dictGet_append]
    cases hd : dictGet d k' with
    | some w => rfl
    | none =>
      have hk : ¬ k = k' := fun hkk => h (Eq.symm hkk)
      simp [dictGet, hk]

theorem dictGet_foldl_not_mem (l : List (String × PyVal)) (d : List (String × PyVal))
    (k : String) (h : k ∉ l.map Prod.fst) :
    dictGet (l.foldl (fun acc e => dictInsert acc e.1 e.2) d) k = dictGet d k := by
  induction l generalizing d with
  | nil => rfl
  | cons e rest ih =>
    simp only [List.map_cons, List.mem_cons, not_or] at h
    rw [List.foldl_cons, ih _ h.2, dictGet_dictInsert_ne _ _ _ _ h.1]

theorem dictGet_foldl_mem (l : List (String × PyVal)) (d : List (String × PyVal))
    (kv : String × PyVal) (hnd : (l.map Prod.fst).Nodup) (hm : kv ∈ l) :
    dictGet (l.foldl (fun acc e => dictInsert acc e.1 e.2) d) kv.1 = Option.some kv.2 := by
  induction l generalizing d with
  | nil => simp at hm
  | cons e rest ih =>
    simp only [List.map_cons, List.nodup_cons] at hnd
    rcases List.mem_cons.mp hm with he | he
    · subst he
      rw [List.foldl_cons, dictGet_foldl_not_mem rest _ kv.1 (by
        intro hk
        exact hnd.1 (by simpa using hk))]
      exact dictGet_dictInsert_self d kv.1 kv.2
    · rw [List.foldl_cons]
      exact ih _ hnd.2 he

/-- C2: in the filesystem metadata dict the spread of `prompt.metadata` is
inserted after the fixed fields, so every key of `prompt.metadata`
(including a fixed key such as `id`) keeps the `prompt.metadata` value,
while fixed keys absent from `prompt.metadata` keep the canonical field
values. -/
theorem filesystem_metadata_spec (p : Prompt) (hnd : (p.metadata.map Prod.fst).Nodup) :
    (∀ kv ∈ p.metadata,
      dictGet (FilesystemPrompt.from_universal_prompt p).metadata kv.1 = Option.some kv.2) ∧
    (∀ kv ∈ fixedMetadataPairs p, kv.1 ∉ p.metadata.map Prod.fst →
      dictGet (FilesystemPrompt.from_universal_prompt p).metadata kv.1 = Option.some kv.2) := by
  have hmeta : (FilesystemPrompt.from_universal_prompt p).metadata =
      p.metadata.foldl (fun acc e => dictInsert acc e.1 e.2)
        ((fixedMetadataPairs p).foldl (fun acc e => dictInsert acc e.1 e.2) []) := by
    simp [FilesystemPrompt.from_universal_prompt, dictOfPairs, List.foldl_append]
  constructor
  · intro kv hm
    rw [hmeta]
    exact dictGet_foldl_mem p.metadata _ kv hnd hm
  · intro kv hm hnot
    rw [hmeta, dictGet_foldl_not_mem p.metadata _ kv.1 hnot]
    refine dictGet_foldl_mem (fixedMetadataPairs p) [] kv ?_ hm
    have hkeys : (fixedMetadataPairs p).map Prod.fst =
        ["id", "name", "tags", "created_at", "updated_at", "version",
         "source_platform", "source_id"] := rfl
    rw [hkeys]
    decide

/-- Witness for C2 at a concrete prompt whose extra metadata shadows the
fixed `id` key and adds a custom key: the extra value wins for `id`, and the
untouched fixed key `name` keeps the canonical value. -/
theorem filesystem_metadata_spec_witness :
    dictGet (FilesystemPrompt.from_universal_prompt
        ⟨"orig-id", "My Prompt", "c", ["t"], ⟨"2024-01-01T00:00:00"⟩,
          ⟨"2024-01-02T00:00:00"⟩, "1", Option.none, Option.none,
          [("id", PyVal.str "shadow"), ("custom", PyVal.int 7)]⟩).metadata "id" =
      Option.some (PyVal.str "shadow") ∧
    dictGet (FilesystemPrompt.from_universal_prompt
        ⟨"orig-id", "My Prompt", "c", ["t"], ⟨"2024-01-01T00:00:00"⟩,
          ⟨"2024-01-02T00:00:00"⟩, "1", Option.none, Option.none,
          [("id", PyVal.str "shadow"), ("custom", PyVal.int 7)]⟩).metadata "name" =
      Option.some (PyVal.str "My Prompt") := by
  constructor
  · exact (filesystem_metadata_spec _ (by decide)).1 ("id", PyVal.str "shadow")
      (List.mem_cons_self _ _)
  · exact (filesystem_metadata_spec _ (by decide)).2 ("name", PyVal.str "My Prompt")
      (List.mem_cons_of_mem _ (List.mem_cons_self _ _)) (by decide)

theorem length_filterMap_of_all_some {α β : Type} (f : α → Option β) (l : List α)
    (h : ∀ a ∈ l, (f a).isSome) : (l.filterMap f).length = l.length := by
  induction l with
  | nil => rfl
  | cons a rest ih =>
    cases hf : f a with
    | none =>
      have := h a (List.mem_cons_self a rest)
      rw [hf] at this
      simp at this
    | some b =>
      rw [List.filterMap_cons_some hf]
      simp only [List.length_cons]
      rw [ih fun x hx => h x (List.mem_cons_of_mem a hx)]

theorem length_filterMap_lt_of_none {α β : Type} (f : α → Option β) (l : List α)
    (a : α) (ha : a ∈ l) (hf : f a = Option.none) :
    (l.filterMap f).length < l.length := by
  induction l with
  | nil => simp at ha
  | cons b rest ih =>
    rcases List.mem_cons.mp ha with hab | hmem
    · subst hab
      rw [List.filterMap_cons_none hf]
      simp only [List.length_cons]
      exact Nat.lt_succ_of_le (List.length_filterMap_le f rest)
    · cases hb : f b with
      | none =>
        rw [List.filterMap_cons_none hb]
        simp only [List.length_cons]
        exact Nat.lt_succ_of_lt (ih hmem)
      | some c =>
        rw [List.filterMap_cons_some hb]
        simp only [List.length_cons]
        exact Nat.succ_lt_succ (ih hmem)

/-- C3: when every configured source and sink has a distinct non-missing
name, `validate_config` returns exactly the per-job diagnostics in sync
order (no duplicate-name diagnostics), and a job whose source and sink are
both unresolved contributes exactly the two referential diagnostics, both
of which appear in the returned list. -/
theorem validate_config_two_diagnostics (config : PidgeonConfig) (job : SyncJobConfig)
    (hsrcAll : ∀ s ∈ config.sources, s.name.isSome)
    (hsrcNd : (config.sources.filterMap SourceConfig.name).Nodup)
    (hsnkAll : ∀ s ∈ config.sinks, s.name.isSome)
    (hsnkNd : (config.sinks.filterMap SinkConfig.name).Nodup)
    (hjob : job ∈ config.sync)
    (hs : job.source ∉ sourceNames config)
    (hk : job.sink ∉ sinkNames config) :
    validate_config config =
      config.sync.flatMap (jobRefErrors (sourceNames config) (sinkNames config)) ∧
    jobRefErrors (sourceNames config) (sinkNames config) job =
      [unknownSourceMsg job, unknownSinkMsg job] ∧
    unknownSourceMsg job ∈ validate_config config ∧
    unknownSinkMsg job ∈ validate_config config := by
  have h1 : (sourceNames config).card = config.sources.length := by
    unfold sourceNames
    rw [List.toFinset_card_of_nodup hsrcNd, length_filterMap_of_all_some _ _ hsrcAll]
  have h2 : (sinkNames config).card = config.sinks.length := by
    unfold sinkNames
    rw [List.toFinset_card_of_nodup hsnkNd, length_filterMap_of_all_some _ _ hsnkAll]
  have hflat : validate_config config =
      config.sync.flatMap (jobRefErrors (sourceNames config) (sinkNames config)) := by
    unfold validate_config
    simp [h1, h2]
  have hjobErr : jobRefErrors (sourceNames config) (sinkNames config) job =
      [unknownSourceMsg job, unknownSinkMsg job] := by
    simp [jobRefErrors, hs, hk]
  refine ⟨hflat, hjobErr, ?_, ?_⟩
  · rw [hflat]
    exact List.mem_flatMap.mpr ⟨job, hjob, by rw [hjobErr]; simp⟩
  · rw [hflat]
    exact List.mem_flatMap.mpr ⟨job, hjob, by rw [hjobErr]; simp⟩

/-- Witness for C3: a one-source, one-sink configuration with a single sync
job referencing neither; the output is exactly that job's two diagnostics. -/
theorem validate_config_two_diagnostics_witness :
    validate_config ⟨[⟨Option.some "s1"⟩], [⟨Option.some "k1"⟩],
        [⟨"broken", "nosrc", "nosink", true⟩]⟩ =
      (PidgeonConfig.mk [⟨Option.some "s1"⟩] [⟨Option.some "k1"⟩]
        [⟨"broken", "nosrc", "nosink", true⟩]).sync.flatMap
        (jobRefErrors
          (sourceNames ⟨[⟨Option.some "s1"⟩], [⟨Option.some "k1"⟩],
            [⟨"broken", "nosrc", "nosink", true⟩]⟩)
          (sinkNames ⟨[⟨Option.some "s1"⟩], [⟨Option.some "k1"⟩],
            [⟨"broken", "nosrc", "nosink", true⟩]⟩)) ∧
    jobRefErrors
        (sourceNames ⟨[⟨Option.some "s1"⟩], [⟨Option.some "k1"⟩],
          [⟨"broken", "nosrc", "nosink", true⟩]⟩)
        (sinkNames ⟨[⟨Option.some "s1"⟩], [⟨Option.some "k1"⟩],
          [⟨"broken", "nosrc", "nosink", true⟩]⟩)
        ⟨"broken", "nosrc", "nosink", true⟩ =
      [unknownSourceMsg ⟨"broken", "nosrc", "nosink", true⟩,
       unknownSinkMsg ⟨"broken", "nosrc", "nosink", true⟩] ∧
    unknownSourceMsg ⟨"broken", "nosrc", "nosink", true⟩ ∈
      validate_config ⟨[⟨Option.some "s1"⟩], [⟨Option.some "k1"⟩],
        [⟨"broken", "nosrc", "nosink", true⟩]⟩ ∧
    unknownSinkMsg ⟨"broken", "nosrc", "nosink", true⟩ ∈
      validate_config ⟨[⟨Option.some "s1"⟩], [⟨Option.some "k1"⟩],
        [⟨"broken", "nosrc", "nosink", true⟩]⟩ :=
  validate_config_two_diagnostics _ _ (by decide) (by decide) (by decide) (by decide)
    (by decide) (by decide) (by decide)

/-- C10: an entry whose name view is `None` is discarded from the name set,
so its mere presence makes the set smaller than the list and triggers the
duplicate-names diagnostic even when no name is actually repeated; for
sources and sinks alike. -/
theorem validate_config_none_name_dup (config : PidgeonConfig) :
    ((∃ s ∈ config.sources, s.name = Option.none) →
      (config.sources.filterMap SourceConfig.name).Nodup →
      "Duplicate source names found" ∈ validate_config config) ∧
    ((∃ s ∈ config.sinks, s.name = Option.none) →
      (config.sinks.filterMap SinkConfig.name).Nodup →
      "Duplicate sink names found" ∈ validate_config config) := by
  constructor
  · rintro ⟨s, hs, hname⟩ _
    have hlt : ((config.sources.filterMap SourceConfig.name).length < config.sources.length) :=
      length_filterMap_lt_of_none _ _ s hs hname
    have hcard : (sourceNames config).card ≠ config.sources.length := by
      have hle : (sourceNames config).card ≤
          (config.sources.filterMap SourceConfig.name).length :=
        List.toFinset_card_le _
      omega
    unfold validate_config
    simp [hcard]
  · rintro ⟨s, hs, hname⟩ _
    have hlt : ((config.sinks.filterMap SinkConfig.name).length < config.sinks.length) :=
      length_filterMap_lt_of_none _ _ s hs hname
    have hcard : (sinkNames config).card ≠ config.sinks.length := by
      have hle : (sinkNames config).card ≤
          (config.sinks.filterMap SinkConfig.name).length :=
        List.toFinset_card_le _
      omega
    unfold validate_config
    simp [hcard]

/-- Witness for C10: a configuration with one nameless source and one
nameless sink (no repeated names anywhere) yields both duplicate-name
diagnostics. -/
theorem validate_config_none_name_dup_witness :
    "Duplicate source names found" ∈
      validate_config ⟨[⟨Option.none⟩], [⟨Option.none⟩], []⟩ ∧
    "Duplicate sink names found" ∈
      validate_config ⟨[⟨Option.none⟩], [⟨Option.none⟩], []⟩ :=
  ⟨(validate_config_none_name_dup ⟨[⟨Option.none⟩], [⟨Option.none⟩], []⟩).1
      ⟨⟨Option.none⟩, by simp, rfl⟩ (by decide),
   (validate_config_none_name_dup ⟨[⟨Option.none⟩], [⟨Option.none⟩], []⟩).2
      ⟨⟨Option.none⟩, by simp, rfl⟩ (by decide)⟩

/-- C8: whenever at least one of the four variables holds a non-empty
value, the resolved Langfuse endpoint is the first non-empty value in the
order prefixed URL, legacy URL, prefixed HOST, legacy HOST — so a prefixed
variable beats its legacy twin and any URL variable beats any HOST
variable. -/
theorem langfuse_url_preference (ppUrl lfUrl ppHost lfHost : Option String)
    (h : ∃ o ∈ [ppUrl, lfUrl, ppHost, lfHost], ∃ s, o = Option.some s ∧ s ≠ "") :
    resolve_langfuse_url ppUrl lfUrl ppHost lfHost =
      firstNonEmpty [ppUrl, lfUrl, ppHost, lfHost] := by
  rcases ppUrl with _ | s1 <;> rcases lfUrl with _ | s2 <;>
    rcases ppHost with _ | s3 <;> rcases lfHost with _ | s4 <;>
    simp only [resolve_langfuse_url, pyOrStr, firstNonEmpty] <;>
    split_ifs <;> simp_all

/-- Witness for C8: with the prefixed URL unset, the legacy URL set, and the
prefixed HOST also set, the legacy URL wins. -/
theorem langfuse_url_preference_witness :
    resolve_langfuse_url Option.none (Option.some "https://legacy.example")
        (Option.some "https://host.example") Option.none =
      firstNonEmpty [Option.none, Option.some "https://legacy.example",
        Option.some "https://host.example", Option.none] :=
  langfuse_url_preference _ _ _ _
    ⟨Option.some "https://legacy.example", by simp,
     "https://legacy.example", rfl, by decide⟩
